import Mathlib

/-
  Verification of `binance_trade_bot/backtest.py`.

  The file shallowly embeds the backtest module in Lean 4:
  * the balance ledger (`self.balances`, a Python dict with `.get(key, 0)` reads)
    becomes a total function `Symbol → ℚ` defaulting to 0;
  * Python floats become exact rationals `ℚ`;
  * the simulated clock (`self.datetime`, advanced by `timedelta(minutes=interval)`)
    becomes minutes-since-start as a `ℕ`;
  * the diskcache `Cache` keyed by `f"{ticker_symbol}_{dt}"` becomes a function
    from `(symbol, minute)` keys to `Option ℚ`;
  * the Binance klines endpoint (`binance_client.get_historical_klines`) becomes a
    deterministic `Source` returning, for a symbol and minute, either a price
    (`data`), an `IndexError`-style empty result (`noData`), or a
    `BinanceAPIException` (`apiError`).  The unbounded retry on
    `requests.exceptions.ConnectionError` inside `get_market_ticker_price` is
    absorbed into `Source`: a source answer models the eventual outcome after the
    network-level retry loop settles.
-/

namespace BinanceBacktest

abbrev Symbol := String

/-- A balance ledger: `self.balances`.  Python reads use `.get(symbol, 0)`, so an
absent dict key and a key stored as 0 are indistinguishable to every operation in
the module; the ledger is embedded as a total function defaulting to 0. -/
abbrev Ledger := Symbol → ℚ

/-- Pointwise dict write `balances[k] = v`. -/
def updateBal (b : Ledger) (k : Symbol) (v : ℚ) : Ledger :=
  fun s => if s = k then v else b s

/-- `MockBinanceManager.get_currency_balance` (backtest.py lines 74-78):
`self.balances.get(currency_symbol, 0)`. -/
def get_currency_balance (balances : Ledger) (currency_symbol : Symbol) : ℚ :=
  balances currency_symbol

/-- `MockBinanceManager.get_fee` (backtest.py lines 52-53): the constant `0.0075`,
independent of the coin pair and of the trade direction. -/
def get_fee (_origin_coin _target_coin : Symbol) (_selling : Bool) : ℚ :=
  0.0075

/-- Modelled from the spec: `BinanceAPIManager._buy_quantity` is called at
backtest.py line 87 but its definition is not under `src/`.  The spec (§4.4) says
the buy "computes the maximum quantity of origin purchasable from the entire
available target balance at `price` (quantity = available_target / price, policy:
spend 100% of target holdings)". -/
def buy_quantity (target_balance from_coin_price : ℚ) : ℚ :=
  target_balance / from_coin_price

/-- Modelled from the spec: `BinanceAPIManager._sell_quantity` is called at
backtest.py line 102 but its definition is not under `src/`.  The spec (§4.4)
says the sell "computes sell quantity as the entire available origin balance
(policy: sell 100% of origin holdings)". -/
def sell_quantity (origin_balance : ℚ) : ℚ :=
  origin_balance

/-- `MockBinanceManager.buy_alt` (backtest.py lines 80-93), with the price
already resolved by the caller-supplied `all_tickers.get_price` (line 85).
Line 89 (`self.balances[target_symbol] -= target_quantity`) and line 90
(`self.balances.get(origin_symbol, 0) + ...`) both read the current ledger;
returns the new ledger together with the reported fill price (`{"price": ...}`,
line 93). -/
def buy_alt (balances : Ledger) (origin_symbol target_symbol : Symbol)
    (from_coin_price : ℚ) : Ledger × ℚ :=
  let target_balance := get_currency_balance balances target_symbol
  let order_quantity := buy_quantity target_balance from_coin_price
  let target_quantity := order_quantity * from_coin_price
  let b1 := updateBal balances target_symbol (balances target_symbol - target_quantity)
  let b2 := updateBal b1 origin_symbol
    (get_currency_balance b1 origin_symbol
      + order_quantity * (1 - get_fee origin_symbol target_symbol false))
  (b2, from_coin_price)

/-- `MockBinanceManager.sell_alt` (backtest.py lines 95-108), with the price
already resolved (line 100).  Line 104 credits the target leg net of the fee;
line 107 (`self.balances[origin_symbol] -= order_quantity`) reads the ledger
after the target-leg write. -/
def sell_alt (balances : Ledger) (origin_symbol target_symbol : Symbol)
    (from_coin_price : ℚ) : Ledger × ℚ :=
  let origin_balance := get_currency_balance balances origin_symbol
  let order_quantity := sell_quantity origin_balance
  let target_quantity := order_quantity * from_coin_price
  let b1 := updateBal balances target_symbol
    (get_currency_balance balances target_symbol
      + target_quantity * (1 - get_fee origin_symbol target_symbol true))
  let b2 := updateBal b1 origin_symbol (b1 origin_symbol - order_quantity)
  (b2, from_coin_price)

/-- An order against the simulated exchange, with the fill price the exchange
resolved for the pair at that tick. -/
inductive Op where
  | buy : Symbol → Symbol → ℚ → Op
  | sell : Symbol → Symbol → ℚ → Op

/-- The fill price of an order. -/
def Op.price : Op → ℚ
  | .buy _ _ p => p
  | .sell _ _ p => p

/-- Execute one order against the ledger. -/
def applyOp (bal : Ledger) : Op → Ledger
  | .buy o t p => (buy_alt bal o t p).1
  | .sell o t p => (sell_alt bal o t p).1

/-- Execute a sequence of orders left to right. -/
def applyOps (bal : Ledger) : List Op → Ledger
  | [] => bal
  | op :: ops => applyOps (applyOp bal op) ops

lemma updateBal_nonneg {b : Ledger} {k : Symbol} {v : ℚ}
    (hb : ∀ s, 0 ≤ b s) (hv : 0 ≤ v) : ∀ s, 0 ≤ updateBal b k v s := by
  intro s
  unfold updateBal
  split
  · exact hv
  · exact hb s

lemma fee_lt_one (o t : Symbol) (b : Bool) : get_fee o t b < 1 := by
  unfold get_fee
  norm_num

lemma fee_nonneg (o t : Symbol) (b : Bool) : 0 ≤ get_fee o t b := by
  unfold get_fee
  norm_num

lemma buy_alt_nonneg {bal : Ledger} {o t : Symbol} {p : ℚ} (hp : 0 < p)
    (hb : ∀ s, 0 ≤ bal s) : ∀ s, 0 ≤ (buy_alt bal o t p).1 s := by
  have hq : (0 : ℚ) ≤ bal t / p := div_nonneg (hb t) hp.le
  have hqp : bal t / p * p = bal t := div_mul_cancel₀ _ hp.ne'
  have h1 : ∀ s, 0 ≤ updateBal bal t (bal t - bal t / p * p) s := by
    refine updateBal_nonneg hb ?_
    rw [hqp, sub_self]
  intro s
  show 0 ≤ updateBal (updateBal bal t (bal t - bal t / p * p)) o
      (updateBal bal t (bal t - bal t / p * p) o + bal t / p * (1 - get_fee o t false)) s
  refine updateBal_nonneg h1 ?_ s
  have hfee : (0 : ℚ) ≤ 1 - get_fee o t false := by
    have := fee_lt_one o t false
    linarith
  exact add_nonneg (h1 o) (mul_nonneg hq hfee)

lemma sell_alt_nonneg {bal : Ledger} {o t : Symbol} {p : ℚ} (hp : 0 < p)
    (hb : ∀ s, 0 ≤ bal s) : ∀ s, 0 ≤ (sell_alt bal o t p).1 s := by
  have hfee : (0 : ℚ) ≤ 1 - get_fee o t true := by
    have := fee_lt_one o t true
    linarith
  have h1 : ∀ s, 0 ≤ updateBal bal t (bal t + bal o * p * (1 - get_fee o t true)) s :=
    updateBal_nonneg hb
      (add_nonneg (hb t) (mul_nonneg (mul_nonneg (hb o) hp.le) hfee))
  intro s
  show 0 ≤ updateBal (updateBal bal t (bal t + bal o * p * (1 - get_fee o t true))) o
      (updateBal bal t (bal t + bal o * p * (1 - get_fee o t true)) o - bal o) s
  refine updateBal_nonneg h1 ?_ s
  by_cases ho : o = t
  · subst ho
    show (0 : ℚ) ≤ updateBal bal o (bal o + bal o * p * (1 - get_fee o o true)) o - bal o
    unfold updateBal
    simp only [if_pos rfl, ite_true]
    have : (0 : ℚ) ≤ bal o * p * (1 - get_fee o o true) :=
      mul_nonneg (mul_nonneg (hb o) hp.le) hfee
    linarith
  · show (0 : ℚ) ≤ updateBal bal t (bal t + bal o * p * (1 - get_fee o t true)) o - bal o
    unfold updateBal
    simp only [if_neg ho, sub_self, le_refl]

lemma applyOp_nonneg {bal : Ledger} {op : Op} (hp : 0 < op.price)
    (hb : ∀ s, 0 ≤ bal s) : ∀ s, 0 ≤ applyOp bal op s := by
  cases op with
  | buy o t p => exact buy_alt_nonneg hp hb
  | sell o t p => exact sell_alt_nonneg hp hb

/-- C1: for every sequence of buy and sell operations in which the order
quantity is derived from the available balance (the buy spends the entire
target balance at the given positive price, the sell sells the entire origin
balance), every balance in the ledger stays non-negative after every
operation. -/
theorem c1_balance_nonneg (ops : List Op) (bal : Ledger) (s : Symbol)
    (hpos : ∀ op ∈ ops, 0 < op.price) (hinit : ∀ s', 0 ≤ bal s') :
    0 ≤ applyOps bal ops s := by
  induction ops generalizing bal with
  | nil => exact hinit s
  | cons op rest ih =>
    exact ih (applyOp bal op)
      (fun o ho => hpos o (List.mem_cons_of_mem _ ho))
      (applyOp_nonneg (hpos op (List.mem_cons_self _ _)) hinit)

/-- A small initial ledger: 100 units of the bridge asset USDT. -/
def demoLedger : Ledger := fun s => if s = "USDT" then 100 else 0

/-- A concrete order sequence: buy BTC with the whole USDT balance, then sell it
back. -/
def demoOps : List Op := [Op.buy "BTC" "USDT" 2, Op.sell "BTC" "USDT" 3]

lemma demoLedger_nonneg : ∀ s, 0 ≤ demoLedger s := by
  intro s
  unfold demoLedger
  split <;> norm_num

/-- Witness for C1 at a concrete two-order run. -/
theorem c1_balance_nonneg_witness :
    (∀ op ∈ demoOps, 0 < op.price) ∧ 0 ≤ applyOps demoLedger demoOps "BTC" := by
  refine ⟨by decide, ?_⟩
  exact c1_balance_nonneg demoOps demoLedger "BTC" (by decide) demoLedger_nonneg

/-- C2: a buy with order quantity `q` at price `p` debits the target balance by
exactly `q * p` and credits the origin balance by exactly `q * (1 - feeRate)`
with `feeRate = 0.0075`; the fee touches only the received leg, for the sell as
well (target credited net of fee, origin debited by exactly the quantity). -/
theorem c2_fee_conservation (bal : Ledger) (o t : Symbol) (p : ℚ) (h : o ≠ t) :
    bal t - (buy_alt bal o t p).1 t = buy_quantity (bal t) p * p
  ∧ (buy_alt bal o t p).1 o - bal o = buy_quantity (bal t) p * (1 - 0.0075)
  ∧ (sell_alt bal o t p).1 t - bal t = sell_quantity (bal o) * p * (1 - 0.0075)
  ∧ bal o - (sell_alt bal o t p).1 o = sell_quantity (bal o)
  ∧ ∀ o' t' s', get_fee o' t' s' = 0.0075 := by
  have h' : t ≠ o := Ne.symm h
  refine ⟨?_, ?_, ?_, ?_, fun _ _ _ => rfl⟩ <;>
    simp only [buy_alt, sell_alt, get_currency_balance, get_fee, updateBal,
      if_pos rfl, ite_true, if_neg h, if_neg h'] <;>
    ring

/-- Witness for C2 at a concrete ledger and pair. -/
theorem c2_fee_conservation_witness :
    ("BTC" : Symbol) ≠ "USDT"
  ∧ (demoLedger "USDT" - (buy_alt demoLedger "BTC" "USDT" 2).1 "USDT"
       = buy_quantity (demoLedger "USDT") 2 * 2
  ∧ (buy_alt demoLedger "BTC" "USDT" 2).1 "BTC" - demoLedger "BTC"
       = buy_quantity (demoLedger "USDT") 2 * (1 - 0.0075)
  ∧ (sell_alt demoLedger "BTC" "USDT" 2).1 "USDT" - demoLedger "USDT"
       = sell_quantity (demoLedger "BTC") * 2 * (1 - 0.0075)
  ∧ demoLedger "BTC" - (sell_alt demoLedger "BTC" "USDT" 2).1 "BTC"
       = sell_quantity (demoLedger "BTC")
  ∧ ∀ o' t' s', get_fee o' t' s' = 0.0075) :=
  ⟨by decide, c2_fee_conservation demoLedger "BTC" "USDT" 2 (by decide)⟩

/-- Outcome of one (post network-retry) call to
`binance_client.get_historical_klines` for a symbol at a minute: a price
(`[0][1]` of a non-empty klines answer), an empty answer (the `IndexError`
branch), or a `BinanceAPIException`. -/
inductive FetchResult where
  | data : ℚ → FetchResult
  | noData : FetchResult
  | apiError : FetchResult
deriving DecidableEq

/-- The Historical Price Source, deterministic in (symbol, minute). -/
abbrev Source := Symbol → ℕ → FetchResult

/-- A cache key: the code builds `f"{ticker_symbol}_{dt}"` with `dt` the clock
formatted to the minute; embedded as the pair (symbol, minute). -/
abbrev CacheKey := Symbol × ℕ

/-- The diskcache `Cache(".cache")` store: `cache.get(key, None)` semantics. -/
abbrev PriceCache := CacheKey → Option ℚ

/-- A cache with no entries. -/
def emptyCache : PriceCache := fun _ => none

/-- `cache.set(key, val)` (backtest.py line 65). -/
def cacheSet (c : PriceCache) (k : CacheKey) (v : ℚ) : PriceCache :=
  fun k' => if k' = k then some v else c k'

/-- The cache together with a count of calls made to the Historical Price
Source (instrumentation used to state the at-most-once claims). -/
structure PriceState where
  cache : PriceCache
  sourceCalls : ℕ

/-- `MockBinanceManager.get_market_ticker_price` (backtest.py lines 55-72):
on a cache hit return the cached value; on a miss consult the source, caching
and returning the price on success, returning `none` on the `IndexError`
(no-data) branch, and raising (`Except.error`) on a `BinanceAPIException`,
which the method does not catch.  The `ConnectionError` retry loop (lines
66-68) is absorbed into `Source`.  The second component is the updated cache
and source-call counter. -/
def get_market_ticker_price (source : Source) (ps : PriceState)
    (ticker_symbol : Symbol) (t : ℕ) : Except Unit (Option ℚ) × PriceState :=
  match ps.cache (ticker_symbol, t) with
  | some v => (.ok (some v), ps)
  | none =>
    match source ticker_symbol t with
    | .data v =>
        (.ok (some v), ⟨cacheSet ps.cache (ticker_symbol, t) v, ps.sourceCalls + 1⟩)
    | .noData => (.ok none, ⟨ps.cache, ps.sourceCalls + 1⟩)
    | .apiError => (.error (), ⟨ps.cache, ps.sourceCalls + 1⟩)

/-- State of one backtest run: the ledger, the price cache state, and the
virtual clock (`manager.datetime`, in minutes). -/
structure BTState where
  balances : Ledger
  ps : PriceState
  clock : ℕ

/-- `FakeAllTickers.get_price` (backtest.py lines 21-26): delegates to the
manager's `get_market_ticker_price` at the manager's current clock. -/
def fake_all_tickers_price (source : Source) (st : BTState)
    (ticker_symbol : Symbol) : Except Unit (Option ℚ) × PriceState :=
  get_market_ticker_price source st.ps ticker_symbol st.clock

/-- Modelled from the spec: the Strategy Driver's per-tick evaluation
(`AutoTrader.scout`) is not under `src/`.  Per the spec (§4.4, §7), an absent
price is "cannot trade this tick" — the strategy issues no order and the
ledger is untouched — while a present price may trigger a trade (here: one
buy of `origin` with the whole `target` balance); any other source failure is
fatal (`none`). -/
def scout_step (source : Source) (st : BTState) (origin target : Symbol) :
    Option BTState :=
  match get_market_ticker_price source st.ps (origin ++ target) st.clock with
  | (.ok (some p), ps') => some ⟨(buy_alt st.balances origin target p).1, ps', st.clock⟩
  | (.ok none, ps') => some ⟨st.balances, ps', st.clock⟩
  | (.error _, _) => none

/-- C3: when the source has no data for the pair at the current minute (and
the cache has no entry either), the price lookup returns absent without
writing the cache, no balance is mutated for that tick, and the absent price
reaches the strategy as a no-fill (the tick completes, it does not crash). -/
theorem c3_missing_data (source : Source) (st : BTState) (o t : Symbol)
    (hmiss : st.ps.cache (o ++ t, st.clock) = none)
    (hnd : source (o ++ t) st.clock = .noData) :
    get_market_ticker_price source st.ps (o ++ t) st.clock
      = (.ok none, ⟨st.ps.cache, st.ps.sourceCalls + 1⟩)
  ∧ ∃ st', scout_step source st o t = some st'
      ∧ st'.balances = st.balances ∧ st'.ps.cache = st.ps.cache := by
  have hg : get_market_ticker_price source st.ps (o ++ t) st.clock
      = (.ok none, ⟨st.ps.cache, st.ps.sourceCalls + 1⟩) := by
    unfold get_market_ticker_price
    rw [hmiss, hnd]
  refine ⟨hg, ⟨st.balances, ⟨st.ps.cache, st.ps.sourceCalls + 1⟩, st.clock⟩, ?_, rfl, rfl⟩
  unfold scout_step
  rw [hg]

/-- A source with no data anywhere. -/
def noDataSource : Source := fun _ _ => .noData

/-- A demo backtest state: the demo ledger, an empty cache, clock at 0. -/
def demoState : BTState := ⟨demoLedger, ⟨emptyCache, 0⟩, 0⟩

/-- Witness for C3: the no-data source at a concrete pair and minute. -/
theorem c3_missing_data_witness :
    demoState.ps.cache ("BTC" ++ "USDT", demoState.clock) = none
  ∧ noDataSource ("BTC" ++ "USDT") demoState.clock = .noData
  ∧ (get_market_ticker_price noDataSource demoState.ps ("BTC" ++ "USDT") demoState.clock
      = (.ok none, ⟨demoState.ps.cache, demoState.ps.sourceCalls + 1⟩)
  ∧ ∃ st', scout_step noDataSource demoState "BTC" "USDT" = some st'
      ∧ st'.balances = demoState.balances ∧ st'.ps.cache = demoState.ps.cache) :=
  ⟨rfl, rfl, c3_missing_data noDataSource demoState "BTC" "USDT" rfl rfl⟩

/-- C4 counterexample: with an empty cache and a (pair, minute) for which the
source reports no data, two consecutive price lookups return the same value
(absent) but the source is consulted twice — nothing was cached by the first
call — refuting "the Historical Price Source is called at most once across
the two calls". -/
theorem c4_counterexample :
    ((get_market_ticker_price noDataSource
        (get_market_ticker_price noDataSource ⟨emptyCache, 0⟩ "BTCUSDT" 0).2
        "BTCUSDT" 0).1
      = (get_market_ticker_price noDataSource ⟨emptyCache, 0⟩ "BTCUSDT" 0).1)
  ∧ (get_market_ticker_price noDataSource
        (get_market_ticker_price noDataSource ⟨emptyCache, 0⟩ "BTCUSDT" 0).2
        "BTCUSDT" 0).2.sourceCalls = 2
  ∧ ¬ (get_market_ticker_price noDataSource
        (get_market_ticker_price noDataSource ⟨emptyCache, 0⟩ "BTCUSDT" 0).2
        "BTCUSDT" 0).2.sourceCalls ≤ 1 :=
  ⟨rfl, rfl, by decide⟩

/-- C4 amended: calling the price lookup twice, empty-then-populated cache,
returns the same value both times in every case; the source is consulted
exactly once across the two calls whenever it has data for the key (the
no-data outcome is not cached, so there the source is consulted by each of
the two calls); and a cache entry, once written, is never overwritten. -/
theorem c4_cache_idempotent (source : Source) (sym : Symbol) (t : ℕ)
    (ps : PriceState) (hmiss : ps.cache (sym, t) = none) :
    (∀ v, source sym t = .data v →
      (get_market_ticker_price source ps sym t).1 = .ok (some v)
    ∧ (get_market_ticker_price source (get_market_ticker_price source ps sym t).2 sym t).1
        = .ok (some v)
    ∧ (get_market_ticker_price source (get_market_ticker_price source ps sym t).2 sym t).2.sourceCalls
        = ps.sourceCalls + 1)
  ∧ (source sym t = .noData →
      (get_market_ticker_price source ps sym t).1 = .ok none
    ∧ (get_market_ticker_price source (get_market_ticker_price source ps sym t).2 sym t).1
        = .ok none
    ∧ (get_market_ticker_price source (get_market_ticker_price source ps sym t).2 sym t).2.sourceCalls
        = ps.sourceCalls + 2)
  ∧ (∀ k w, ps.cache k = some w →
      (get_market_ticker_price source ps sym t).2.cache k = some w) := by
  refine ⟨?_, ?_, ?_⟩
  · intro v hv
    have h1 : get_market_ticker_price source ps sym t
        = (.ok (some v), ⟨cacheSet ps.cache (sym, t) v, ps.sourceCalls + 1⟩) := by
      unfold get_market_ticker_price
      rw [hmiss, hv]
    have h2 : cacheSet ps.cache (sym, t) v (sym, t) = some v := by
      unfold cacheSet
      rw [if_pos rfl]
    refine ⟨by rw [h1], ?_, ?_⟩ <;>
      · rw [h1]
        unfold get_market_ticker_price
        simp only [h2]
  · intro hv
    have h1 : get_market_ticker_price source ps sym t
        = (.ok none, ⟨ps.cache, ps.sourceCalls + 1⟩) := by
      unfold get_market_ticker_price
      rw [hmiss, hv]
    refine ⟨by rw [h1], ?_, ?_⟩ <;>
      · rw [h1]
        unfold get_market_ticker_price
        simp only [hmiss, hv]
  · intro k w hk
    unfold get_market_ticker_price
    rw [hmiss]
    cases hs : source sym t <;> simp only [cacheSet] <;> try exact hk
    split
    · next heq =>
        rw [heq] at hk
        rw [hmiss] at hk
        exact absurd hk (by simp)
    · exact hk

/-- A source holding one datapoint: price 7 for BTCUSDT at minute 0. -/
def oneDataSource : Source := fun sym t =>
  if sym = "BTCUSDT" ∧ t = 0 then .data 7 else .noData

/-- Witness for the amended C4 at the one-datapoint source. -/
theorem c4_cache_idempotent_witness :
    (⟨emptyCache, 0⟩ : PriceState).cache ("BTCUSDT", 0) = none
  ∧ ((get_market_ticker_price oneDataSource ⟨emptyCache, 0⟩ "BTCUSDT" 0).1 = .ok (some 7)
  ∧ (get_market_ticker_price oneDataSource
        (get_market_ticker_price oneDataSource ⟨emptyCache, 0⟩ "BTCUSDT" 0).2 "BTCUSDT" 0).1
      = .ok (some 7)
  ∧ (get_market_ticker_price oneDataSource
        (get_market_ticker_price oneDataSource ⟨emptyCache, 0⟩ "BTCUSDT" 0).2 "BTCUSDT" 0).2.sourceCalls
      = (⟨emptyCache, 0⟩ : PriceState).sourceCalls + 1) :=
  ⟨rfl, (c4_cache_idempotent oneDataSource "BTCUSDT" 0 ⟨emptyCache, 0⟩ rfl).1 7 (by decide)⟩

/-- The initialization portion of `backtest` (backtest.py lines 139-144): build
the manager state (fresh run, empty per-run instrumentation), and if the
starting coin's balance is zero, perform one opening buy of it against the
bridge, with the fill price obtained through
`manager.get_all_market_tickers()` — that is, through `FakeAllTickers`, which
delegates to `get_market_ticker_price` at the start clock.  An absent price or
an API error at that lookup makes the Python run crash (`none` here). -/
def backtest_init (source : Source) (bridge starting_coin : Symbol)
    (start_balances : Ledger) (start_t : ℕ) : Option BTState :=
  if get_currency_balance start_balances starting_coin = 0 then
    match fake_all_tickers_price source ⟨start_balances, ⟨emptyCache, 0⟩, start_t⟩
        (starting_coin ++ bridge) with
    | (.ok (some p), ps') =>
        some ⟨(buy_alt start_balances starting_coin bridge p).1, ps', start_t⟩
    | (.ok none, _) => none
    | (.error _, _) => none
  else some ⟨start_balances, ⟨emptyCache, 0⟩, start_t⟩

lemma get_price_miss_data {source : Source} {ps : PriceState} {sym : Symbol}
    {t : ℕ} {v : ℚ} (hmiss : ps.cache (sym, t) = none)
    (hv : source sym t = .data v) :
    get_market_ticker_price source ps sym t
      = (.ok (some v), ⟨cacheSet ps.cache (sym, t) v, ps.sourceCalls + 1⟩) := by
  unfold get_market_ticker_price
  rw [hmiss, hv]

/-- A source for the opening-buy scenario: price 7 for XUSDT at minute 0. -/
def c5Source : Source := fun sym t =>
  if sym = "XUSDT" ∧ t = 0 then .data 7 else .noData

/-- C5 counterexample: the claim says the opening buy's fill price comes from a
live ticker snapshot and not from the Historical Price Source.  On the
concrete run below the initialization consults the Historical Price Source
exactly once (the call counter moves 0 → 1) and the resulting position is
priced by the source's value 7 — `FakeAllTickers.get_price` is
`get_market_ticker_price`, i.e. the cached historical source. -/
theorem c5_counterexample :
    (backtest_init c5Source "USDT" "X" demoLedger 0).map (fun st => st.ps.sourceCalls)
      = some 1
  ∧ (backtest_init c5Source "USDT" "X" demoLedger 0).map (fun st => st.ps.sourceCalls)
      ≠ some 0
  ∧ (backtest_init c5Source "USDT" "X" demoLedger 0).map (fun st => st.ps.cache ("XUSDT", 0))
      = some (some 7) := by
  refine ⟨?_, ?_, ?_⟩ <;> decide

/-- C5 amended: when the designated starting coin has zero initial balance, the
initialization performs exactly one opening buy of it against the bridge
before the tick loop, with the fill price obtained through the all-tickers
interface — which in the backtest delegates to the cached Historical Price
Source at the start minute (one source call), not to a live snapshot;
afterwards the starting coin's balance is nonzero (the whole bridge balance
converted at that price, net of the 0.0075 fee on the received leg) and the
bridge balance has decreased to zero. -/
theorem c5_opening_buy (source : Source) (bridge coin : Symbol) (bal0 : Ledger)
    (t0 : ℕ) (p : ℚ) (hz : bal0 coin = 0)
    (hp : source (coin ++ bridge) t0 = .data p) (hppos : 0 < p)
    (hb : 0 < bal0 bridge) (hne : coin ≠ bridge) :
    ∃ st, backtest_init source bridge coin bal0 t0 = some st
      ∧ st.balances coin = (bal0 bridge / p) * (1 - get_fee coin bridge false)
      ∧ 0 < st.balances coin
      ∧ st.balances bridge = 0
      ∧ st.balances bridge < bal0 bridge
      ∧ st.ps.sourceCalls = 1 := by
  have hlook : fake_all_tickers_price source ⟨bal0, ⟨emptyCache, 0⟩, t0⟩ (coin ++ bridge)
      = (.ok (some p), ⟨cacheSet emptyCache (coin ++ bridge, t0) p, 1⟩) :=
    get_price_miss_data rfl hp
  have hinit : backtest_init source bridge coin bal0 t0
      = some ⟨(buy_alt bal0 coin bridge p).1,
          ⟨cacheSet emptyCache (coin ++ bridge, t0) p, 1⟩, t0⟩ := by
    unfold backtest_init
    rw [if_pos (show get_currency_balance bal0 coin = 0 from hz), hlook]
  refine ⟨_, hinit, ?_, ?_, ?_, ?_, rfl⟩
  · show updateBal (updateBal bal0 bridge (bal0 bridge - bal0 bridge / p * p)) coin
        (updateBal bal0 bridge (bal0 bridge - bal0 bridge / p * p) coin
          + bal0 bridge / p * (1 - get_fee coin bridge false)) coin
      = bal0 bridge / p * (1 - get_fee coin bridge false)
    unfold updateBal
    rw [if_pos rfl, if_neg hne, hz, zero_add]
  · show (0 : ℚ) < updateBal (updateBal bal0 bridge (bal0 bridge - bal0 bridge / p * p)) coin
        (updateBal bal0 bridge (bal0 bridge - bal0 bridge / p * p) coin
          + bal0 bridge / p * (1 - get_fee coin bridge false)) coin
    unfold updateBal
    rw [if_pos rfl, if_neg hne, hz, zero_add]
    have h1 : (0 : ℚ) < bal0 bridge / p := div_pos hb hppos
    have h2 : (0 : ℚ) < 1 - get_fee coin bridge false := by
      have := fee_lt_one coin bridge false
      linarith
    exact mul_pos h1 h2
  · show updateBal (updateBal bal0 bridge (bal0 bridge - bal0 bridge / p * p)) coin
        (updateBal bal0 bridge (bal0 bridge - bal0 bridge / p * p) coin
          + bal0 bridge / p * (1 - get_fee coin bridge false)) bridge
      = 0
    unfold updateBal
    rw [if_neg (Ne.symm hne), if_pos rfl, div_mul_cancel₀ _ hppos.ne', sub_self]
  · show updateBal (updateBal bal0 bridge (bal0 bridge - bal0 bridge / p * p)) coin
        (updateBal bal0 bridge (bal0 bridge - bal0 bridge / p * p) coin
          + bal0 bridge / p * (1 - get_fee coin bridge false)) bridge
      < bal0 bridge
    unfold updateBal
    rw [if_neg (Ne.symm hne), if_pos rfl, div_mul_cancel₀ _ hppos.ne', sub_self]
    exact hb

/-- Witness for the amended C5: zero starting X, 100 USDT, source price 7. -/
theorem c5_opening_buy_witness :
    demoLedger "X" = 0
  ∧ c5Source ("X" ++ "USDT") 0 = .data 7
  ∧ (0 : ℚ) < 7
  ∧ (0 : ℚ) < demoLedger "USDT"
  ∧ ("X" : Symbol) ≠ "USDT"
  ∧ ∃ st, backtest_init c5Source "USDT" "X" demoLedger 0 = some st
      ∧ st.balances "X" = (demoLedger "USDT" / 7) * (1 - get_fee "X" "USDT" false)
      ∧ 0 < st.balances "X"
      ∧ st.balances "USDT" = 0
      ∧ st.balances "USDT" < demoLedger "USDT"
      ∧ st.ps.sourceCalls = 1 :=
  ⟨by decide, by decide, by decide, by decide, by decide,
    c5_opening_buy c5Source "USDT" "X" demoLedger 0 7
      (by decide) (by decide) (by decide) (by decide) (by decide)⟩

/-- `MockBinanceManager.increment` (backtest.py lines 43-44): the virtual clock
moves forward by `interval` minutes. -/
def increment (dt : ℕ) (interval : ℕ) : ℕ :=
  dt + interval

/-- The clock after `n` calls of `increment interval` starting from `start`. -/
def clockAfter (start interval : ℕ) : ℕ → ℕ
  | 0 => start
  | n + 1 => increment (clockAfter start interval n) interval

/-- C7: with a fixed positive interval, after `n` `increment` calls the clock
reads `start + n * interval` minutes, and each call strictly increases it —
the clock (a `ℕ` count of minutes) never moves backward and never wraps. -/
theorem c7_clock_monotone (start interval n : ℕ) (h : 0 < interval) :
    clockAfter start interval n = start + n * interval
  ∧ clockAfter start interval n < clockAfter start interval (n + 1) := by
  have key : ∀ m, clockAfter start interval m = start + m * interval := by
    intro m
    induction m with
    | zero => simp [clockAfter]
    | succ k ih =>
        show increment (clockAfter start interval k) interval = _
        rw [ih]
        unfold increment
        ring
  refine ⟨key n, ?_⟩
  rw [key n, key (n + 1)]
  have : n * interval < (n + 1) * interval := by
    have := Nat.succ_le_of_lt h
    nlinarith
  omega

/-- Witness for C7: interval 1, three ticks from minute 5. -/
theorem c7_clock_monotone_witness :
    0 < 1
  ∧ (clockAfter 5 1 3 = 5 + 3 * 1 ∧ clockAfter 5 1 3 < clockAfter 5 1 (3 + 1)) :=
  ⟨by decide, c7_clock_monotone 5 1 3 (by decide)⟩

/-- The tick loop of `backtest` (backtest.py lines 149-156), with the external
Strategy Driver's per-tick evaluation (`trader.scout()`, not under `src/`)
abstracted as a ledger transformer indexed by the tick number.  `cancelAt`
models a `KeyboardInterrupt` delivered while tick `i` is being processed: the
loop body stops there and the exception (carrying the current ledger in our
embedding) escapes to the `try`.  The result pairs the loop outcome with the
number of `scout` invocations.  `fuel` bounds the recursion; every caller
passes enough fuel for a positive interval (`interval = 0` would loop forever
in Python and exhausts the fuel here). -/
def runLoop (strategy : ℕ → Ledger → Ledger) (end_t interval : ℕ)
    (cancelAt : Option ℕ) : ℕ → ℕ → ℕ → Ledger → Except Ledger Ledger × ℕ
  | 0, _, _, bal => (.ok bal, 0)
  | fuel + 1, i, t, bal =>
    if t < end_t then
      let bal' := strategy i bal
      if cancelAt = some i then (.error bal', 1)
      else
        let r := runLoop strategy end_t interval cancelAt fuel (i + 1)
          (increment t interval) bal'
        (r.1, r.2 + 1)
    else (.ok bal, 0)

/-- The `try`/`except KeyboardInterrupt`/`return self.balances` wrapper of
`backtest` (backtest.py lines 149-156): run the tick loop and return the
current ledger whether the loop finished or was interrupted, together with
the number of ticks evaluated. -/
def backtest_loop (strategy : ℕ → Ledger → Ledger)
    (start_t end_t interval : ℕ) (cancelAt : Option ℕ) (bal : Ledger) :
    Ledger × ℕ :=
  match runLoop strategy end_t interval cancelAt (end_t - start_t) 0 start_t bal with
  | (.ok b, c) => (b, c)
  | (.error b, c) => (b, c)

/-- The ledger after ticks `i, i+1, ..., i+n-1` of the strategy. -/
def foldTicks (strategy : ℕ → Ledger → Ledger) : ℕ → ℕ → Ledger → Ledger
  | _, 0, bal => bal
  | i, n + 1, bal => foldTicks strategy (i + 1) n (strategy i bal)

lemma runLoop_cancel (strategy : ℕ → Ledger → Ledger) (end_t interval : ℕ) :
    ∀ j fuel i t bal, j < fuel → t + j * interval < end_t →
      runLoop strategy end_t interval (some (i + j)) fuel i t bal
        = (.error (foldTicks strategy i (j + 1) bal), j + 1) := by
  intro j
  induction j with
  | zero =>
      intro fuel i t bal hfuel ht
      match fuel, hfuel with
      | fuel + 1, _ =>
        unfold runLoop
        rw [if_pos (by omega : t < end_t), Nat.add_zero, if_pos rfl]
        rfl
  | succ j ih =>
      intro fuel i t bal hfuel ht
      match fuel, hfuel with
      | fuel + 1, hfuel =>
        unfold runLoop
        rw [if_pos (by omega : t < end_t),
          if_neg (by simp only [Option.some.injEq]; omega)]
        have hrec := ih fuel (i + 1) (increment t interval) (strategy i bal)
          (by omega)
          (by unfold increment; have : t + interval + j * interval = t + (j + 1) * interval := by ring
              omega)
        rw [show i + (j + 1) = (i + 1) + j by omega, hrec]
        rfl

/-- C6: when an operator cancellation (`KeyboardInterrupt`) arrives at tick `k`
of the loop (with tick `k` actually occurring, i.e. its clock value is below
the end time), the loop stops, the interrupt is caught rather than propagated,
and the entry point returns the ledger holding exactly the mutations of ticks
`0` through `k` — `k + 1` strategy evaluations, none from later ticks. -/
theorem c6_cancellation (strategy : ℕ → Ledger → Ledger)
    (k start_t end_t interval : ℕ) (bal : Ledger)
    (hi : 0 < interval) (hk : start_t + k * interval < end_t) :
    backtest_loop strategy start_t end_t interval (some k) bal
      = (foldTicks strategy 0 (k + 1) bal, k + 1) := by
  have hfuel : k < end_t - start_t := by
    have : k ≤ k * interval := Nat.le_mul_of_pos_right k hi
    omega
  have h := runLoop_cancel strategy end_t interval k (end_t - start_t) 0 start_t bal
    hfuel hk
  unfold backtest_loop
  rw [show (some k : Option ℕ) = some (0 + k) by rw [Nat.zero_add], h]

/-- A demo strategy for witnesses: tick `i` adds `i + 1` to the BTC balance. -/
def demoStrategy : ℕ → Ledger → Ledger :=
  fun i bal => updateBal bal "BTC" (bal "BTC" + (i + 1))

/-- Witness for C6: cancellation at tick 5 of the 10-tick demo run. -/
theorem c6_cancellation_witness :
    0 < 1 ∧ 0 + 5 * 1 < 10
  ∧ backtest_loop demoStrategy 0 10 1 (some 5) demoLedger
      = (foldTicks demoStrategy 0 (5 + 1) demoLedger, 5 + 1) :=
  ⟨by decide, by decide,
    c6_cancellation demoStrategy 5 0 10 1 demoLedger (by decide) (by decide)⟩

lemma runLoop_complete (strategy : ℕ → Ledger → Ledger) (end_t interval : ℕ) :
    ∀ j fuel i t bal, j ≤ fuel → (∀ m, m < j → t + m * interval < end_t) →
      end_t ≤ t + j * interval →
      runLoop strategy end_t interval none fuel i t bal
        = (.ok (foldTicks strategy i j bal), j) := by
  intro j
  induction j with
  | zero =>
      intro fuel i t bal _ _ hend
      have hnot : ¬ t < end_t := by omega
      match fuel with
      | 0 => rfl
      | fuel + 1 =>
        unfold runLoop
        rw [if_neg hnot]
        rfl
  | succ j ih =>
      intro fuel i t bal hfuel hlt hend
      match fuel, hfuel with
      | fuel + 1, hfuel =>
        unfold runLoop
        rw [if_pos (by have := hlt 0 (by omega); omega : t < end_t),
          if_neg (by simp)]
        have hrec := ih fuel (i + 1) (increment t interval) (strategy i bal)
          (by omega)
          (by intro m hm
              unfold increment
              have : t + interval + m * interval = t + (m + 1) * interval := by ring
              have := hlt (m + 1) (by omega)
              omega)
          (by unfold increment
              have : t + interval + j * interval = t + (j + 1) * interval := by ring
              omega)
        rw [hrec]
        rfl

/-- C8: for a backtest with start minute 0, end minute 10 and a one-minute
interval, the loop invokes the strategy's per-tick evaluation exactly 10 times
(once per tick while the clock is below the end time) and returns the ledger
produced by those 10 ticks. -/
theorem c8_loop_ticks (strategy : ℕ → Ledger → Ledger) (bal : Ledger) :
    backtest_loop strategy 0 10 1 none bal
      = (foldTicks strategy 0 10 bal, 10) := by
  have h := runLoop_complete strategy 10 1 10 (10 - 0) 0 0 bal
    (by omega) (by intro m hm; omega) (by omega)
  unfold backtest_loop
  rw [h]

/-- State of one prefetch worker (`download_market_data._thread`,
backtest.py lines 166-174): its private manager's cache state, its private
clock, and its shared progress counter (`counter.value`). -/
structure WorkerState where
  ps : PriceState
  clock : ℕ
  counter : ℕ

/-- One pass of the worker's loop body (backtest.py lines 169-174): call
`get_market_ticker_price` for the symbol at the current clock; if it returns
(with a price or with `None`), advance the clock by `interval` and increment
the counter; if it raises `BinanceAPIException`, back off (`time.sleep`) and
leave the clock and counter untouched so the same tick is retried. -/
def worker_step (source : Source) (symbol : Symbol) (interval : ℕ)
    (st : WorkerState) : WorkerState :=
  match get_market_ticker_price source st.ps symbol st.clock with
  | (.ok _, ps') => ⟨ps', increment st.clock interval, st.counter + 1⟩
  | (.error _, ps') => ⟨ps', st.clock, st.counter⟩

/-- The worker's `while manager.datetime < end_date` loop, fuel-bounded. -/
def worker_run (source : Source) (symbol : Symbol) (end_t interval : ℕ) :
    ℕ → WorkerState → WorkerState
  | 0, st => st
  | fuel + 1, st =>
    if st.clock < end_t then
      worker_run source symbol end_t interval fuel (worker_step source symbol interval st)
    else st

/-- State of the supervising process (backtest.py lines 184-191): how many
progress reports it has printed, the content of the last one (total
datapoints and the per-symbol average, lines 185-186), and whether the loop
has exited.  The loop condition is the literal `while True`: no iteration
sets `halted`. -/
structure SupervisorState where
  reportsEmitted : ℕ
  lastReport : Option (ℕ × ℕ)
  halted : Bool

/-- One pass of the supervisor's body: read the workers' counters (a snapshot
indexed by how many sleeps have elapsed), aggregate, report, sleep.  There is
no `break`, no `join`, and no exit condition. -/
def supervisor_step (counters : ℕ → List ℕ) (s : SupervisorState) :
    SupervisorState :=
  let snapshot := counters s.reportsEmitted
  ⟨s.reportsEmitted + 1, some (snapshot.sum, snapshot.sum / snapshot.length), s.halted⟩

/-- The supervisor after `n` passes, starting not halted. -/
def supervisor_after (counters : ℕ → List ℕ) : ℕ → SupervisorState
  | 0 => ⟨0, none, false⟩
  | n + 1 => supervisor_step counters (supervisor_after counters n)

lemma supervisor_after_not_halted (counters : ℕ → List ℕ) :
    ∀ n, (supervisor_after counters n).halted = false := by
  intro n
  induction n with
  | zero => rfl
  | succ k ih =>
      show (supervisor_step counters (supervisor_after counters k)).halted = false
      unfold supervisor_step
      exact ih

/-- Counter snapshots in which both workers have long finished. -/
def demoCounters : ℕ → List ℕ := fun _ => [10, 10]

/-- C9 counterexample: the prefetch entry point's supervising loop is
`while True` with no exit, `break` or `join`; even with every worker finished
(the concrete snapshot stream reports full progress forever), no number of
supervisor passes ever reaches a halted state — `download_market_data` never
returns, refuting the claim that it terminates once all workers complete. -/
theorem c9_counterexample :
    ¬ ∃ n, (supervisor_after demoCounters n).halted = true := by
  intro h
  obtain ⟨n, hn⟩ := h
  rw [supervisor_after_not_halted demoCounters n] at hn
  exact Bool.false_ne_true hn

/-- C9 amended: each per-symbol worker does complete its timeline — with a
source that never raises an API error, after enough passes its clock reaches
the end time — but the entry point does not then return: the supervising
process keeps emitting periodic progress reports forever, never halting. -/
theorem c9_prefetch (source : Source) (symbol : Symbol)
    (end_t interval fuel : ℕ) (st : WorkerState) (counters : ℕ → List ℕ)
    (hapi : ∀ t, source symbol t ≠ .apiError)
    (hfuel : end_t ≤ st.clock + fuel * interval) :
    end_t ≤ (worker_run source symbol end_t interval fuel st).clock
  ∧ ∀ n, (supervisor_after counters n).halted = false := by
  refine ⟨?_, supervisor_after_not_halted counters⟩
  induction fuel generalizing st with
  | zero =>
      show end_t ≤ st.clock
      simpa using hfuel
  | succ fuel ih =>
      unfold worker_run
      by_cases hlt : st.clock < end_t
      · rw [if_pos hlt]
        have hstep : (worker_step source symbol interval st).clock
            = st.clock + interval := by
          unfold worker_step
          cases hc : st.ps.cache (symbol, st.clock) with
          | some v =>
              unfold get_market_ticker_price
              rw [hc]
              rfl
          | none =>
              unfold get_market_ticker_price
              rw [hc]
              cases hs : source symbol st.clock with
              | data v => rfl
              | noData => rfl
              | apiError => exact absurd hs (hapi st.clock)
        have := ih (worker_step source symbol interval st)
          (by rw [hstep]
              have : st.clock + interval + fuel * interval
                  = st.clock + (fuel + 1) * interval := by ring
              omega)
        exact this
      · rw [if_neg hlt]
        omega

/-- A source that always has data: price 3 everywhere. -/
def alwaysDataSource : Source := fun _ _ => .data 3

/-- Witness for the amended C9: a five-minute timeline at interval 1 with an
error-free source, and the always-running supervisor. -/
theorem c9_prefetch_witness :
    (∀ t, alwaysDataSource "BTCUSDT" t ≠ .apiError)
  ∧ 5 ≤ 0 + 5 * 1
  ∧ (5 ≤ (worker_run alwaysDataSource "BTCUSDT" 5 1 5 ⟨⟨emptyCache, 0⟩, 0, 0⟩).clock
  ∧ ∀ n, (supervisor_after demoCounters n).halted = false) :=
  ⟨fun t => by simp [alwaysDataSource], by decide,
    c9_prefetch alwaysDataSource "BTCUSDT" 5 1 5 ⟨⟨emptyCache, 0⟩, 0, 0⟩
      demoCounters (fun t => by simp [alwaysDataSource]) (by decide)⟩

/-- C10: at a tick where the source reports no data for the symbol (and the
cache is empty for that key), the worker behaves exactly as on a successful
fetch — it advances its clock past the tick and increments its progress
counter; only a `BinanceAPIException` (`apiError`) makes it back off and
retry the same tick, leaving both the clock and the counter unchanged. -/
theorem c10_worker_nodata (source : Source) (symbol : Symbol) (interval : ℕ)
    (st : WorkerState) (hmiss : st.ps.cache (symbol, st.clock) = none) :
    (source symbol st.clock = .noData →
      (worker_step source symbol interval st).clock = st.clock + interval
    ∧ (worker_step source symbol interval st).counter = st.counter + 1)
  ∧ (∀ v, source symbol st.clock = .data v →
      (worker_step source symbol interval st).clock = st.clock + interval
    ∧ (worker_step source symbol interval st).counter = st.counter + 1)
  ∧ (source symbol st.clock = .apiError →
      (worker_step source symbol interval st).clock = st.clock
    ∧ (worker_step source symbol interval st).counter = st.counter) := by
  refine ⟨?_, ?_, ?_⟩
  · intro hs
    unfold worker_step get_market_ticker_price
    rw [hmiss, hs]
    exact ⟨rfl, rfl⟩
  · intro v hs
    unfold worker_step get_market_ticker_price
    rw [hmiss, hs]
    exact ⟨rfl, rfl⟩
  · intro hs
    unfold worker_step get_market_ticker_price
    rw [hmiss, hs]
    exact ⟨rfl, rfl⟩

/-- Witness for C10: the no-data source at a fresh worker state. -/
theorem c10_worker_nodata_witness :
    (⟨⟨emptyCache, 0⟩, 0, 0⟩ : WorkerState).ps.cache ("BTCUSDT", 0) = none
  ∧ noDataSource "BTCUSDT" 0 = .noData
  ∧ (worker_step noDataSource "BTCUSDT" 1 ⟨⟨emptyCache, 0⟩, 0, 0⟩).clock = 0 + 1
  ∧ (worker_step noDataSource "BTCUSDT" 1 ⟨⟨emptyCache, 0⟩, 0, 0⟩).counter = 0 + 1 :=
  ⟨rfl, rfl,
    ((c10_worker_nodata noDataSource "BTCUSDT" 1 ⟨⟨emptyCache, 0⟩, 0, 0⟩ rfl).1 rfl).1,
    ((c10_worker_nodata noDataSource "BTCUSDT" 1 ⟨⟨emptyCache, 0⟩, 0, 0⟩ rfl).1 rfl).2⟩

end BinanceBacktest
